import Mathlib

/-!
Verification development for the Prompt-Math editor core
(`src/prompt_math/prompt_math_editor.js` and
`src/prompt_math/prompt_math_mode.js`).

The JavaScript code is shallowly embedded: JS numbers are modelled as
rationals (`ℚ`), JS values flowing through the schedule-parameter
coercion as an inductive `JSValue` (finite number, string, or
`undefined`), and the stateful editor pieces (expression cache,
validator) as pure functions over lists.
-/

namespace PromptMath

/-- A JavaScript value as it can appear in a schedule argument list or in a
schedule metadata `defaults` map: a finite number, a string, or `undefined`.
(JS `NaN`/`Infinity` never enter: `sanitiseNumber` only produces finite
numbers, and a parse failure is modelled as `none` below.) -/
inductive JSValue where
  | num (x : ℚ)
  | str (s : String)
  | undef
deriving DecidableEq, Repr

/-- Models the JS nullish-coalescing operator `a ?? b` (no `null` in the
model, so only `undefined` selects the right operand). -/
def jsCoalesce (a b : JSValue) : JSValue :=
  match a with
  | .undef => b
  | v => v

/-- Models JS `String.prototype.trim`: drop leading and trailing whitespace. -/
def listTrim (l : List Char) : List Char :=
  ((l.dropWhile Char.isWhitespace).reverse.dropWhile Char.isWhitespace).reverse

/-- Models JS `String.prototype.trim` on Lean strings. -/
def jsTrim (s : String) : String := ⟨listTrim s.data⟩

/-- The double-quote character. -/
def dquote : Char := Char.ofNat 34

/-- The single-quote character. -/
def squote : Char := Char.ofNat 39

/-- Digits of a decimal numeral read as a natural number. -/
def digitsToNat (l : List Char) : ℕ :=
  l.foldl (fun n c => 10 * n + (c.toNat - 48)) 0

/-- Models JS `Number.parseFloat` on an (already trimmed) string: optional
sign, decimal digits with an optional fractional part, and an optional
decimal exponent, reading the longest valid prefix.  Returns `none` exactly
when JS would produce a value rejected by the source's `Number.isFinite`
guard (`NaN` for a digit-free input; the model does not produce infinities). -/
def jsParseFloat (s : String) : Option ℚ :=
  let l0 := s.data
  let signed : ℚ × List Char :=
    match l0 with
    | '-' :: t => (-1, t)
    | '+' :: t => (1, t)
    | _ => (1, l0)
  let sign := signed.1
  let l := signed.2
  let intPart := l.takeWhile Char.isDigit
  let l1 := l.drop intPart.length
  let fraced : List Char × List Char :=
    match l1 with
    | '.' :: t => (t.takeWhile Char.isDigit, t.drop (t.takeWhile Char.isDigit).length)
    | _ => ([], l1)
  let fracPart := fraced.1
  let l2 := fraced.2
  if intPart = [] ∧ fracPart = [] then none
  else
    let mantissa : ℚ := (digitsToNat intPart : ℚ) + (digitsToNat fracPart : ℚ) / (10 : ℚ) ^ fracPart.length
    let expVal : ℤ :=
      match l2 with
      | c :: t =>
        if c = 'e' ∨ c = 'E' then
          let esigned : ℤ × List Char :=
            match t with
            | '-' :: u => (-1, u)
            | '+' :: u => (1, u)
            | _ => (1, t)
          let eDigits := esigned.2.takeWhile Char.isDigit
          if eDigits = [] then 0 else esigned.1 * (digitsToNat eDigits : ℤ)
        else 0
      | [] => 0
    some (sign * mantissa * (10 : ℚ) ^ expVal)

/-- Embeds `sanitiseNumber(value, fallback)`: a finite number is kept, a
string is trimmed and parsed with `parseFloat` (the fallback is returned when
the parse is not a finite number), anything else returns the fallback. -/
def sanitiseNumber (value fallback : JSValue) : JSValue :=
  match value with
  | .num x => .num x
  | .str s =>
    match jsParseFloat (jsTrim s) with
    | some p => .num p
    | none => fallback
  | .undef => fallback

/-- Embeds `stripQuotes(value)`: non-strings are returned unchanged; a string
is trimmed, and when it both starts and ends with the same quote character
(double or single) the first and last characters are sliced off. -/
def stripQuotes (value : JSValue) : JSValue :=
  match value with
  | .str s =>
    let t := listTrim s.data
    if (t.head? = some dquote ∧ t.getLast? = some dquote) ∨
       (t.head? = some squote ∧ t.getLast? = some squote) then
      .str ⟨(t.drop 1).dropLast⟩
    else
      .str ⟨t⟩
  | v => v

/-! ## Curve library (`CURVE_RESOLVERS`) -/

/-- Curve `linear: (t) => t`. -/
def linear (t : ℚ) : ℚ := t

/-- Curve `smooth: (t) => t * t * (3 - 2 * t)`. -/
def smooth (t : ℚ) : ℚ := t * t * (3 - 2 * t)

/-- Curve `ease_in: (t) => t * t`. -/
def ease_in (t : ℚ) : ℚ := t * t

/-- Curve `ease_out: (t) => 1 - Math.pow(1 - t, 2)`. -/
def ease_out (t : ℚ) : ℚ := 1 - (1 - t) ^ 2

/-- Curve `ease_in_out: (t) => (t < 0.5 ? 2 * t * t : 1 - Math.pow(-2 * t + 2, 2) / 2)`. -/
def ease_in_out (t : ℚ) : ℚ :=
  if t < 1 / 2 then 2 * t * t else 1 - (-2 * t + 2) ^ 2 / 2

/-- Curve `constant: () => 0`. -/
def constant (_ : ℚ) : ℚ := 0

/-- The `CURVE_RESOLVERS` table: name → curve function (`none` models a key
absent from the JS object). -/
def CURVE_RESOLVERS (key : String) : Option (ℚ → ℚ) :=
  if key = "linear" then some linear
  else if key = "smooth" then some smooth
  else if key = "ease_in" then some ease_in
  else if key = "ease_out" then some ease_out
  else if key = "ease_in_out" then some ease_in_out
  else if key = "constant" then some constant
  else none

/-- `CURVE_RESOLVERS[curveKey] || CURVE_RESOLVERS.linear` — table lookup with
`linear` as the fallback for unknown keys. -/
def resolveCurve (key : String) : ℚ → ℚ :=
  (CURVE_RESOLVERS key).getD linear

/-- Embeds `clamp01 = (value) => Math.min(1, Math.max(0, value))`. -/
def clamp01 (value : ℚ) : ℚ := min 1 (max 0 value)

/-! ## Schedule metadata and the factory (`buildScheduleFunctionFactories`) -/

/-- One entry of a schedule's declared `parameters` list. -/
structure ParamSpec where
  name : String
  type : String
  required : Bool
deriving DecidableEq, Repr

/-- Registered schedule metadata (one value of `DEFAULT_SCHEDULE_FUNCTIONS`
or of a merged config's `scheduleFunctions`).  `defaults` models the JS
`defaults` object, returning `undefined` for missing keys; `direction` and
`clamp` model the optional `info.direction` / `info.clamp` fields. -/
structure ScheduleInfo where
  direction : Option String
  defaults : String → JSValue
  parameters : List ParamSpec
  clamp : Option Bool

/-- Models JS `a || b` for the `info?.direction || 'increase'` expression:
a missing or empty string is falsy and selects the default. -/
def jsOrString (a : Option String) (b : String) : String :=
  match a with
  | some s => if s = "" then b else s
  | none => b

/-- Models JS `String.prototype.toLowerCase` (the relevant inputs — curve
keys and direction names — are ASCII). -/
def jsToLower (s : String) : String := ⟨s.data.map Char.toLower⟩

/-- Resolution of one declared parameter against the positional argument
list — the body of the `parameters.forEach` loop of the factory.
`i` is the parameter's position; a missing argument is `undefined`. -/
def resolveValue (info : ScheduleInfo) (args : List JSValue) (p : ParamSpec) (i : ℕ) : JSValue :=
  let raw := args.getD i .undef
  if p.type = "float" then
    let value := sanitiseNumber raw (info.defaults p.name)
    if value = .undef ∧ p.required then jsCoalesce (info.defaults p.name) (.num 0)
    else value
  else if p.type = "string" then
    let candidate := if raw ≠ .undef then raw else info.defaults p.name
    stripQuotes (jsCoalesce candidate (.str ""))
  else
    jsCoalesce raw (info.defaults p.name)

/-- The `resolved` object after the `forEach` loop: a map from parameter
name to resolved value (`undefined` for names never assigned; a later
parameter with the same name overwrites an earlier one, as JS assignment
does). -/
def resolvedParams (info : ScheduleInfo) (args : List JSValue) : String → JSValue :=
  info.parameters.enum.foldl
    (fun acc pi key => if key = pi.2.name then resolveValue info args pi.2 pi.1 else acc key)
    (fun _ => .undef)

/-- The data captured by the time-function closure a schedule factory
returns: fully resolved start/end/span, the (lower-cased) curve key, the
direction string, and the clamp policy. -/
structure ScheduleBinding where
  start : ℚ
  «end» : ℚ
  span : ℚ
  curveKey : String
  direction : String
  clampOutput : Bool
deriving DecidableEq, Repr

/-- The candidate value whose `.toLowerCase()` produces the curve key:
`stripQuotes(resolved.curve ?? defaults.curve ?? 'linear')`. -/
def curveCandidate (info : ScheduleInfo) (args : List JSValue) : JSValue :=
  stripQuotes (jsCoalesce (resolvedParams info args "curve")
    (jsCoalesce (info.defaults "curve") (.str "linear")))

/-- The body of one factory produced by `buildScheduleFunctionFactories`:
given the positional arguments, resolve all declared parameters and build
the closure data.  Returns `none` where the JS factory throws: when a
non-string reaches `.toLowerCase()` (a `TypeError` in JS), or when a
non-numeric value would reach the `end - start` arithmetic (where JS would
silently poison the binding with `NaN`, which the rational model excludes). -/
def buildBinding (info : ScheduleInfo) (args : List JSValue) : Option ScheduleBinding :=
  let resolved := resolvedParams info args
  let startV := jsCoalesce (sanitiseNumber (resolved "start") (jsCoalesce (info.defaults "start") (.num 0))) (.num 0)
  let endV := jsCoalesce (sanitiseNumber (resolved "end") (jsCoalesce (info.defaults "end") (.num 1))) (.num 1)
  match startV, endV, curveCandidate info args with
  | .num s, .num e, .str ck =>
    some { start := s
           «end» := e
           span := max (e - s) (1 / 1000000)
           curveKey := jsToLower ck
           direction := jsToLower (jsOrString info.direction "increase")
           clampOutput := info.clamp ≠ some false }
  | _, _, _ => none

/-- The time function returned by a schedule factory, evaluated on a
binding: boundary short-circuits, curve application on the clamped
normalised time, direction inversion, and output clamping. -/
def scheduleWeight (b : ScheduleBinding) (time : ℚ) : ℚ :=
  let weight : ℚ :=
    if time ≤ b.start then 0
    else if b.«end» ≤ time then 1
    else resolveCurve b.curveKey (clamp01 ((time - b.start) / b.span))
  let weight := if b.direction = "decrease" then 1 - weight else weight
  if b.clampOutput then clamp01 weight else weight

/-- `DEFAULT_SCHEDULE_FUNCTIONS.fade_in`. -/
def fadeInInfo : ScheduleInfo :=
  { direction := some "increase"
    defaults := fun k => if k = "start" then .num 0 else if k = "end" then .num 1 else .undef
    parameters := [⟨"start", "float", true⟩, ⟨"end", "float", true⟩, ⟨"curve", "string", false⟩]
    clamp := none }

/-- `DEFAULT_SCHEDULE_FUNCTIONS.fade_out`. -/
def fadeOutInfo : ScheduleInfo :=
  { direction := some "decrease"
    defaults := fun k => if k = "start" then .num 0 else if k = "end" then .num 1 else .undef
    parameters := [⟨"start", "float", true⟩, ⟨"end", "float", true⟩, ⟨"curve", "string", false⟩]
    clamp := none }

/-- The built-in schedule registry `DEFAULT_SCHEDULE_FUNCTIONS`. -/
def DEFAULT_SCHEDULE_FUNCTIONS (name : String) : Option ScheduleInfo :=
  if name = "fade_in" then some fadeInInfo
  else if name = "fade_out" then some fadeOutInfo
  else none

/-- `buildScheduleFunctionFactories(metadata)`: one factory per registered
name, each mapping an argument list to the closure data of the returned
time function. -/
def buildScheduleFunctionFactories (metadata : String → Option ScheduleInfo) :
    String → Option (List JSValue → Option ScheduleBinding) :=
  fun name => (metadata name).map (fun info args => buildBinding info args)

/-! ## Bracket validator (`PromptMathEditor.validateExpression`) -/

/-- The keys of the validator's `pairs` object. -/
def openings : List Char := ['[', '{', '(']

/-- The values of the validator's `pairs` object. -/
def closings : List Char := [']', '}', ')']

/-- The `pairs` lookup: opening bracket → expected closing bracket
(`none` models the JS `undefined` for any other key). -/
def pairsFn (c : Char) : Option Char :=
  if c = '[' then some ']'
  else if c = '{' then some '}'
  else if c = '(' then some ')'
  else none

/-- Outcome of `validateExpression`: `valid` is the `Syntax OK` path;
`mismatched popped c i` is the early `Mismatched brackets` return, recording
the popped stack top (`none` when the stack was empty, i.e. an unmatched
closing bracket), the offending closing character `c` and its index `i`;
`unclosed` is the final `Unclosed bracket detected` report. -/
inductive ValidateResult where
  | valid
  | mismatched (popped : Option Char) (c : Char) (i : ℕ)
  | unclosed
deriving DecidableEq, Repr

/-- The character loop of `validateExpression`.  The JS stack pushes and
pops at the array's end; it is modelled as a list with its head as the
top.  `i` instruments the loop with the current character index. -/
def validateGo : List Char → ℕ → List Char → ValidateResult
  | [], _, stack => if stack = [] then .valid else .unclosed
  | c :: rest, i, stack =>
    if c ∈ openings then validateGo rest (i + 1) (c :: stack)
    else if c ∈ closings then
      match stack with
      | [] => .mismatched none c i
      | b :: tail =>
        if pairsFn b = some c then validateGo rest (i + 1) tail
        else .mismatched (some b) c i
    else validateGo rest (i + 1) stack

/-- Embeds `PromptMathEditor.validateExpression` on the editor text. -/
def validateExpression (text : List Char) : ValidateResult :=
  validateGo text 0 []

/-- A string built by concatenating correctly nested brackets (the
"validator round-trip" hypothesis of the spec). -/
inductive Balanced : List Char → Prop where
  | nil : Balanced []
  | brackets {w rest : List Char} : Balanced w → Balanced rest →
      Balanced ('[' :: w ++ ']' :: rest)
  | braces {w rest : List Char} : Balanced w → Balanced rest →
      Balanced ('{' :: w ++ '}' :: rest)
  | parens {w rest : List Char} : Balanced w → Balanced rest →
      Balanced ('(' :: w ++ ')' :: rest)

/-- The spec's finding taxonomy names for the claim "an `UnclosedBracket`
or `UnmatchedClosing` finding": in the embedding, the final `unclosed`
report or a mismatch found with an empty stack. -/
def IsUnclosedOrUnmatchedClosing (r : ValidateResult) : Prop :=
  r = .unclosed ∨ ∃ c i, r = .mismatched none c i

/-! ## Lint helper for schedule names (`prompt_math_mode.js`) -/

/-- First character class of the lint regex identifier `[a-zA-Z_]`. -/
def isWordStart (c : Char) : Bool := c.isAlpha || c = '_'

/-- Continuation character class of the lint regex identifier `[a-zA-Z0-9_]`. -/
def isWordChar (c : Char) : Bool := c.isAlphanum || c = '_'

/-- The matches of `line.match(/@\s*([a-zA-Z_][a-zA-Z0-9_]*)/g)`: every
`@` followed by optional whitespace and an identifier, scanned left to
right.  (Rescanning from just after the `@` is equivalent to resuming
after the match, since the consumed whitespace and identifier contain no
`@`.) -/
def scheduleMatches : List Char → List (List Char)
  | [] => []
  | c :: rest =>
    if c = '@' then
      let ws := rest.takeWhile Char.isWhitespace
      let after := rest.drop ws.length
      match after.head? with
      | some d =>
        if isWordStart d then
          ('@' :: ws ++ after.takeWhile isWordChar) :: scheduleMatches rest
        else scheduleMatches rest
      | none => scheduleMatches rest
    else scheduleMatches rest

/-- `match.replace('@', '').trim()`: every match starts with `@`, so
removing the first `@` is dropping the head; the trim then strips the
whitespace run, leaving the identifier. -/
def matchFuncName (m : List Char) : List Char := listTrim (m.drop 1)

/-- The `schedFuncs` list hardcoded inside the lint helper. -/
def schedFuncs : List String :=
  ["fade_in", "fade_out", "emphasis", "schedule", "bell",
   "pulse", "step", "constant", "linear", "smooth"]

/-- Models `line.indexOf(pat)` (as `none` instead of `-1` when absent). -/
def jsIndexOf : List Char → List Char → Option ℕ
  | _, [] => some 0
  | [], _ :: _ => none
  | h :: t, p :: ps =>
    if List.isPrefixOf (p :: ps) (h :: t) then some 0
    else (jsIndexOf t (p :: ps)).map (· + 1)

/-- One finding pushed by the lint helper (`from`/`to` hold the line index
and the character range). -/
structure LintError where
  message : String
  severity : String
  line : ℕ
  fromCh : ℕ
  toCh : ℕ
deriving DecidableEq, Repr

/-- The "invalid schedule syntax" pass of the `promptmath` lint helper on
one line: every regex match whose function name is not in `schedFuncs`
pushes a warning finding at the first occurrence of the matched text. -/
def scheduleLintErrors (lineIdx : ℕ) (line : List Char) : List LintError :=
  (scheduleMatches line).foldl
    (fun errs m =>
      let funcName := matchFuncName m
      if schedFuncs.contains (String.mk funcName) then errs
      else
        let pos := (jsIndexOf line m).getD 0
        errs ++ [⟨"Unknown schedule function: " ++ String.mk funcName, "warning",
                  lineIdx, pos, pos + m.length⟩])
    []

/-! ## Expression cache (`ExpressionCache`) -/

/-- One cached expression entry. -/
structure CacheEntry where
  pseudo : String
  expression : String
  usageCount : ℕ
  timestamp : ℤ
deriving DecidableEq, Repr

/-- `this.maxEntries = 50`. -/
def maxEntries : ℕ := 50

/-- Models `Array.prototype.findIndex` (as `none` instead of `-1`). -/
def jsFindIndex (p : α → Bool) : List α → Option ℕ
  | [] => none
  | a :: l => if p a then some 0 else (jsFindIndex p l).map (· + 1)

/-- Embeds `ExpressionCache.addExpression`: replace the entry with the same
pseudo in place when one exists, otherwise unshift a fresh entry and pop
the oldest when the capacity is exceeded.  `now` supplies `Date.now()`. -/
def addExpression (entries : List CacheEntry) (pseudo expression : String) (now : ℤ) :
    List CacheEntry :=
  let entry : CacheEntry := ⟨pseudo, expression, 0, now⟩
  match jsFindIndex (fun item => item.pseudo = pseudo) entries with
  | some i => entries.set i entry
  | none =>
    let es := entry :: entries
    if maxEntries < es.length then es.dropLast else es

/-- A sequence of `addExpression` calls starting from the empty cache (the
constructor's state when local storage holds nothing). -/
def runAdds (ops : List (String × String × ℤ)) : List CacheEntry :=
  ops.foldl (fun es op => addExpression es op.1 op.2.1 op.2.2) []

/-! ## Spec-side curve formulas

These follow the spec's curve table word for word, to be compared with the
source-derived curve functions above (refinement check for C2). -/

/-- Spec formula `linear(t) = t`. -/
def specLinear (t : ℚ) : ℚ := t

/-- Spec formula `smooth(t) = 3t² − 2t³`. -/
def specSmooth (t : ℚ) : ℚ := 3 * t ^ 2 - 2 * t ^ 3

/-- Spec formula `ease_in(t) = t²`. -/
def specEaseIn (t : ℚ) : ℚ := t ^ 2

/-- Spec formula `ease_out(t) = 1 − (1−t)²`. -/
def specEaseOut (t : ℚ) : ℚ := 1 - (1 - t) ^ 2

/-- Spec formula `ease_in_out(t) = 2t²` for `t < 0.5`, else `1 − (−2t+2)²/2`. -/
def specEaseInOut (t : ℚ) : ℚ :=
  if t < 1 / 2 then 2 * t ^ 2 else 1 - (-2 * t + 2) ^ 2 / 2

/-! ## Concrete bindings used by the scenario claims -/

/-- The binding built by `fade_in(0.2, 0.8)` (no curve argument: the curve
key resolves to the empty string, whose lookup falls back to `linear`). -/
def c4Binding : ScheduleBinding :=
  { start := 1 / 5, «end» := 4 / 5, span := 3 / 5, curveKey := "",
    direction := "increase", clampOutput := true }

/-- The binding built by `fade_out(0.0, 1.0, "ease_out")`. -/
def c3Binding : ScheduleBinding :=
  { start := 0, «end» := 1, span := 1, curveKey := "ease_out",
    direction := "decrease", clampOutput := true }

/-- The binding built by `fade_in(1.0, 0.0)` — start and end reversed, so
the span is floored to the epsilon. -/
def c1CexBinding : ScheduleBinding :=
  { start := 1, «end» := 0, span := 1 / 1000000, curveKey := "",
    direction := "increase", clampOutput := true }

/-! ## Helper lemmas -/

theorem clamp01_nonneg (v : ℚ) : 0 ≤ clamp01 v := by
  unfold clamp01
  rcases le_total (1 : ℚ) (max 0 v) with h | h
  · rw [min_eq_left h]; norm_num
  · rw [min_eq_right h]; exact le_max_left 0 v

theorem clamp01_le_one (v : ℚ) : clamp01 v ≤ 1 := min_le_left 1 (max 0 v)

theorem clamp01_eq_self {v : ℚ} (h0 : 0 ≤ v) (h1 : v ≤ 1) : clamp01 v = v := by
  unfold clamp01
  rw [max_eq_right h0, min_eq_right h1]

theorem resolveCurve_nonneg (key : String) {t : ℚ} (h0 : 0 ≤ t) (h1 : t ≤ 1) :
    0 ≤ resolveCurve key t := by
  unfold resolveCurve CURVE_RESOLVERS
  split_ifs <;>
    simp only [Option.getD_some, Option.getD_none, linear, smooth, ease_in, ease_out,
      ease_in_out, constant]
  · exact h0
  · nlinarith
  · nlinarith
  · nlinarith
  · split <;> nlinarith
  · norm_num
  · exact h0

theorem resolveCurve_le_one (key : String) {t : ℚ} (h0 : 0 ≤ t) (h1 : t ≤ 1) :
    resolveCurve key t ≤ 1 := by
  unfold resolveCurve CURVE_RESOLVERS
  split_ifs <;>
    simp only [Option.getD_some, Option.getD_none, linear, smooth, ease_in, ease_out,
      ease_in_out, constant]
  · exact h1
  · nlinarith [sq_nonneg (1 - t)]
  · nlinarith
  · nlinarith [sq_nonneg (1 - t)]
  · split <;> nlinarith
  · norm_num
  · exact h1

/-! ## Claim theorems -/

/-- C2: each named curve of `CURVE_RESOLVERS` equals its spec formula on
all of `[0,1]`: `linear(t) = t`, `smooth(t) = 3t² − 2t³`, `ease_in(t) = t²`,
`ease_out(t) = 1 − (1−t)²`, `ease_in_out(t) = 2t²` for `t < 0.5` and
`1 − (−2t+2)²/2` otherwise, and `constant(t) = 0` for every `t`. -/
theorem curves_match_spec (t : ℚ) (h0 : 0 ≤ t) (h1 : t ≤ 1) :
    linear t = specLinear t ∧ smooth t = specSmooth t ∧ ease_in t = specEaseIn t ∧
    ease_out t = specEaseOut t ∧ ease_in_out t = specEaseInOut t ∧ constant t = 0 := by
  refine ⟨rfl, ?_, ?_, rfl, ?_, rfl⟩
  · unfold smooth specSmooth; ring
  · unfold ease_in specEaseIn; ring
  · unfold ease_in_out specEaseInOut
    split <;> ring

/-- Witness for C2 at `t = 1/3`. -/
theorem curves_match_spec_witness :
    (0 : ℚ) ≤ 1 / 3 ∧ (1 / 3 : ℚ) ≤ 1 ∧
    (linear (1 / 3) = specLinear (1 / 3) ∧ smooth (1 / 3) = specSmooth (1 / 3) ∧
     ease_in (1 / 3) = specEaseIn (1 / 3) ∧ ease_out (1 / 3) = specEaseOut (1 / 3) ∧
     ease_in_out (1 / 3) = specEaseInOut (1 / 3) ∧ constant (1 / 3) = 0) :=
  ⟨by norm_num, by norm_num, curves_match_spec (1 / 3) (by norm_num) (by norm_num)⟩

/-- C4: `fade_in` applied to positional arguments `0.2` and `0.8` with no
curve argument builds a binding with start `0.2`, end `0.8`, the `linear`
curve and direction `increase`, whose weight is `0.5` at `τ = 0.5`, `0` at
`τ = 0.1`, and `1` at `τ = 0.9`. -/
theorem fade_in_scenario :
    buildBinding fadeInInfo [.num (1 / 5), .num (4 / 5)] = some c4Binding ∧
    c4Binding.start = 1 / 5 ∧ c4Binding.«end» = 4 / 5 ∧
    resolveCurve c4Binding.curveKey = linear ∧
    c4Binding.direction = "increase" ∧
    scheduleWeight c4Binding (1 / 2) = 1 / 2 ∧
    scheduleWeight c4Binding (1 / 10) = 0 ∧
    scheduleWeight c4Binding (9 / 10) = 1 := by
  refine ⟨?_, rfl, rfl, rfl, rfl, ?_, ?_, ?_⟩
  · have h : buildBinding fadeInInfo [.num (1 / 5), .num (4 / 5)] =
        some { start := 1 / 5, «end» := 4 / 5, span := max ((4 / 5 : ℚ) - 1 / 5) (1 / 1000000),
               curveKey := "", direction := "increase", clampOutput := true } := rfl
    rw [h, Option.some.injEq]
    unfold c4Binding
    rw [ScheduleBinding.mk.injEq]
    refine ⟨rfl, rfl, ?_, rfl, rfl, rfl⟩
    rw [max_eq_left (by norm_num : (1 / 1000000 : ℚ) ≤ 4 / 5 - 1 / 5)]
    norm_num
  · simp only [scheduleWeight, c4Binding]
    rw [if_neg (by norm_num : ¬(1 / 2 : ℚ) ≤ 1 / 5), if_neg (by norm_num : ¬(4 / 5 : ℚ) ≤ 1 / 2)]
    simp only [if_true]
    have hc : resolveCurve "" = linear := rfl
    rw [hc, show ((1 : ℚ) / 2 - 1 / 5) / (3 / 5) = 1 / 2 by norm_num,
      clamp01_eq_self (by norm_num : (0 : ℚ) ≤ 1 / 2) (by norm_num : (1 / 2 : ℚ) ≤ 1)]
    unfold linear
    rw [if_neg (by decide : ¬"increase" = "decrease"),
      clamp01_eq_self (by norm_num : (0 : ℚ) ≤ 1 / 2) (by norm_num : (1 / 2 : ℚ) ≤ 1)]
  · simp only [scheduleWeight, c4Binding]
    rw [if_pos (by norm_num : (1 / 10 : ℚ) ≤ 1 / 5),
      if_neg (by decide : ¬"increase" = "decrease")]
    simp [clamp01]
  · simp only [scheduleWeight, c4Binding]
    rw [if_neg (by norm_num : ¬(9 / 10 : ℚ) ≤ 1 / 5), if_pos (by norm_num : (4 / 5 : ℚ) ≤ 9 / 10),
      if_neg (by decide : ¬"increase" = "decrease")]
    simp [clamp01]

/-- C9: every binding the schedule factory actually builds has its span
floored to `1e-6`, so the span is nonzero and normalising a query time
never divides by zero, including when `start == end`. -/
theorem span_floored (info : ScheduleInfo) (args : List JSValue) (b : ScheduleBinding)
    (h : buildBinding info args = some b) :
    1 / 1000000 ≤ b.span ∧ b.span ≠ 0 := by
  simp only [buildBinding] at h
  split at h
  · rename_i s e ck heq1 heq2 heq3
    obtain rfl := Option.some.inj h
    refine ⟨le_max_right _ _, ?_⟩
    have h1 : (0 : ℚ) < 1 / 1000000 := by norm_num
    exact ne_of_gt (lt_of_lt_of_le h1 (le_max_right _ _))
  · exact absurd h (by simp)

/-- Witness for C9: `fade_in(0.0, 1.0)` builds a binding whose span is
floored and nonzero. -/
theorem span_floored_witness :
    (∃ b, buildBinding fadeInInfo [.num 0, .num 1] = some b) ∧
    (1 / 1000000 : ℚ) ≤
      (⟨0, 1, max ((1 : ℚ) - 0) (1 / 1000000), "", "increase", true⟩ : ScheduleBinding).span ∧
    (⟨0, 1, max ((1 : ℚ) - 0) (1 / 1000000), "", "increase", true⟩ : ScheduleBinding).span ≠ 0 :=
  ⟨⟨_, rfl⟩,
   (span_floored fadeInInfo [.num 0, .num 1] _ rfl).1,
   (span_floored fadeInInfo [.num 0, .num 1] _ rfl).2⟩

/-- C1 (amended with `start < end`): for every binding, a query time
`τ ≤ start` (or `τ ≥ end`) bypasses the curve — the weight does not depend
on the curve key — and, provided `start < end`, the endpoint weights are
exactly `0`/`1` for direction `increase` and `1`/`0` for direction
`decrease` (exact equality, hence within any `1e-9` tolerance). -/
theorem boundary_law (b : ScheduleBinding) :
    (∀ (time : ℚ) (k : String), time ≤ b.start →
      scheduleWeight { b with curveKey := k } time = scheduleWeight b time) ∧
    (∀ (time : ℚ) (k : String), b.«end» ≤ time →
      scheduleWeight { b with curveKey := k } time = scheduleWeight b time) ∧
    (b.start < b.«end» →
      (b.direction = "increase" →
        scheduleWeight b b.start = 0 ∧ scheduleWeight b b.«end» = 1) ∧
      (b.direction = "decrease" →
        scheduleWeight b b.start = 1 ∧ scheduleWeight b b.«end» = 0)) := by
  refine ⟨?_, ?_, ?_⟩
  · intro time k h
    simp only [scheduleWeight]
    rw [if_pos h, if_pos h]
  · intro time k h
    simp only [scheduleWeight]
    by_cases h1 : time ≤ b.start
    · rw [if_pos h1, if_pos h1]
    · rw [if_neg h1, if_neg h1, if_pos h, if_pos h]
  · intro hlt
    have hne : ¬ b.«end» ≤ b.start := not_le.2 hlt
    constructor <;> intro hdir
    · constructor
      · simp only [scheduleWeight, hdir]
        rw [if_pos (le_refl b.start), if_neg (by decide : ¬"increase" = "decrease")]
        cases hcl : b.clampOutput <;> simp [clamp01]
      · simp only [scheduleWeight, hdir]
        rw [if_neg hne, if_pos (le_refl b.«end»), if_neg (by decide : ¬"increase" = "decrease")]
        cases hcl : b.clampOutput <;> simp [clamp01]
    · constructor
      · simp only [scheduleWeight, hdir]
        rw [if_pos (le_refl b.start)]
        cases hcl : b.clampOutput <;> simp [clamp01]
      · simp only [scheduleWeight, hdir]
        rw [if_neg hne, if_pos (le_refl b.«end»)]
        cases hcl : b.clampOutput <;> simp [clamp01]

/-- Witness for C1 at concrete increase/decrease bindings over `[0, 1]`. -/
theorem boundary_law_witness :
    scheduleWeight ⟨0, 1, 1, "constant", "increase", true⟩ 0 =
      scheduleWeight ⟨0, 1, 1, "smooth", "increase", true⟩ 0 ∧
    scheduleWeight ⟨0, 1, 1, "smooth", "increase", true⟩ 0 = 0 ∧
    scheduleWeight ⟨0, 1, 1, "smooth", "increase", true⟩ 1 = 1 ∧
    scheduleWeight ⟨0, 1, 1, "smooth", "decrease", true⟩ 0 = 1 ∧
    scheduleWeight ⟨0, 1, 1, "smooth", "decrease", true⟩ 1 = 0 :=
  ⟨(boundary_law ⟨0, 1, 1, "smooth", "increase", true⟩).1 0 "constant" (by decide),
   ((boundary_law ⟨0, 1, 1, "smooth", "increase", true⟩).2.2 (by decide) |>.1 rfl).1,
   ((boundary_law ⟨0, 1, 1, "smooth", "increase", true⟩).2.2 (by decide) |>.1 rfl).2,
   ((boundary_law ⟨0, 1, 1, "smooth", "decrease", true⟩).2.2 (by decide) |>.2 rfl).1,
   ((boundary_law ⟨0, 1, 1, "smooth", "decrease", true⟩).2.2 (by decide) |>.2 rfl).2⟩

/-- Counterexample for C1 as stated: `fade_in(1.0, 0.0)` builds a binding
with direction `increase` whose weight at `end` is `0`, not `1` (not even
within the `1e-9` tolerance), because `end ≤ start`. -/
theorem boundary_law_cex :
    buildBinding fadeInInfo [.num 1, .num 0] = some c1CexBinding ∧
    c1CexBinding.direction = "increase" ∧
    scheduleWeight c1CexBinding c1CexBinding.«end» = 0 ∧
    ¬ |scheduleWeight c1CexBinding c1CexBinding.«end» - 1| ≤ 1 / 1000000000 := by
  have hw : scheduleWeight c1CexBinding c1CexBinding.«end» = 0 := by
    simp only [scheduleWeight, c1CexBinding]
    rw [if_pos (by norm_num : (0 : ℚ) ≤ 1), if_neg (by decide : ¬"increase" = "decrease")]
    simp [clamp01]
  refine ⟨?_, rfl, hw, ?_⟩
  · have hb : buildBinding fadeInInfo [.num 1, .num 0] =
        some { start := 1, «end» := 0, span := max ((0 : ℚ) - 1) (1 / 1000000),
               curveKey := "", direction := "increase", clampOutput := true } := rfl
    rw [hb, Option.some.injEq]
    unfold c1CexBinding
    rw [ScheduleBinding.mk.injEq]
    exact ⟨rfl, rfl, max_eq_right (by norm_num), rfl, rfl, rfl⟩
  · rw [hw]
    norm_num

/-- C3: for any binding with direction `decrease`, the weight at every
query time is `1` minus the weight of the otherwise-identical
`increase`-direction binding; in particular `fade_out(0.0, 1.0, "ease_out")`
at `τ = 0.5` returns `0.25`, inverting the `ease_out` raw value `0.75`. -/
theorem decrease_inverts :
    (∀ (b : ScheduleBinding) (time : ℚ), b.direction = "decrease" →
      scheduleWeight b time =
        1 - scheduleWeight { b with direction := "increase" } time) ∧
    (buildBinding fadeOutInfo [.num 0, .num 1, .str "\"ease_out\""] = some c3Binding ∧
     scheduleWeight c3Binding (1 / 2) = 1 / 4 ∧
     scheduleWeight { c3Binding with direction := "increase" } (1 / 2) = 3 / 4) := by
  refine ⟨?_, ?_, ?_, ?_⟩
  · intro b time hdir
    simp only [scheduleWeight, hdir]
    rw [if_neg (by decide : ¬"increase" = "decrease")]
    set r : ℚ := if time ≤ b.start then 0 else if b.«end» ≤ time then 1
      else resolveCurve b.curveKey (clamp01 ((time - b.start) / b.span)) with hrdef
    have hr0 : 0 ≤ r := by
      rw [hrdef]
      split
      · norm_num
      · split
        · norm_num
        · exact resolveCurve_nonneg _ (clamp01_nonneg _) (clamp01_le_one _)
    have hr1 : r ≤ 1 := by
      rw [hrdef]
      split
      · norm_num
      · split
        · norm_num
        · exact resolveCurve_le_one _ (clamp01_nonneg _) (clamp01_le_one _)
    simp only [if_true]
    cases hcl : b.clampOutput
    · simp only [Bool.false_eq_true, if_false]
    · simp only [if_true]
      rw [clamp01_eq_self (by linarith) (by linarith),
        clamp01_eq_self hr0 hr1]
  · have hb : buildBinding fadeOutInfo [.num 0, .num 1, .str "\"ease_out\""] =
        some { start := 0, «end» := 1, span := max ((1 : ℚ) - 0) (1 / 1000000),
               curveKey := "ease_out", direction := "decrease", clampOutput := true } := rfl
    rw [hb, Option.some.injEq]
    unfold c3Binding
    rw [ScheduleBinding.mk.injEq]
    exact ⟨rfl, rfl, by rw [max_eq_left (by norm_num)]; norm_num, rfl, rfl, rfl⟩
  · simp only [scheduleWeight, c3Binding]
    rw [if_neg (by norm_num : ¬(1 / 2 : ℚ) ≤ 0), if_neg (by norm_num : ¬(1 : ℚ) ≤ 1 / 2)]
    simp only [if_true]
    have hc : resolveCurve "ease_out" = ease_out := rfl
    rw [hc, show ((1 : ℚ) / 2 - 0) / 1 = 1 / 2 by norm_num,
      clamp01_eq_self (by norm_num : (0 : ℚ) ≤ 1 / 2) (by norm_num : (1 / 2 : ℚ) ≤ 1)]
    unfold ease_out
    rw [show (1 : ℚ) - (1 - (1 - 1 / 2) ^ 2) = 1 / 4 by norm_num,
      clamp01_eq_self (by norm_num : (0 : ℚ) ≤ 1 / 4) (by norm_num : (1 / 4 : ℚ) ≤ 1)]
  · simp only [scheduleWeight, c3Binding]
    rw [if_neg (by norm_num : ¬(1 / 2 : ℚ) ≤ 0), if_neg (by norm_num : ¬(1 : ℚ) ≤ 1 / 2),
      if_neg (by decide : ¬"increase" = "decrease")]
    have hc : resolveCurve "ease_out" = ease_out := rfl
    rw [if_pos trivial, hc, show ((1 : ℚ) / 2 - 0) / 1 = 1 / 2 by norm_num,
      clamp01_eq_self (by norm_num : (0 : ℚ) ≤ 1 / 2) (by norm_num : (1 / 2 : ℚ) ≤ 1)]
    unfold ease_out
    rw [show (1 : ℚ) - (1 - 1 / 2) ^ 2 = 3 / 4 by norm_num,
      clamp01_eq_self (by norm_num : (0 : ℚ) ≤ 3 / 4) (by norm_num : (3 / 4 : ℚ) ≤ 1)]

/-- Witness for C3 at a concrete decrease binding and `τ = 2`. -/
theorem decrease_inverts_witness :
    scheduleWeight ⟨0, 1, 1, "smooth", "decrease", true⟩ 2 =
      1 - scheduleWeight ⟨0, 1, 1, "smooth", "increase", true⟩ 2 :=
  decrease_inverts.1 ⟨0, 1, 1, "smooth", "decrease", true⟩ 2 rfl

/-- C6: the curves `ease_in`, `ease_out`, `linear` and `smooth` are
non-decreasing on `[0,1]`, and `constant` returns `0` at every `t`. -/
theorem curve_monotonicity :
    (∀ t₁ t₂ : ℚ, 0 ≤ t₁ → t₁ ≤ t₂ → t₂ ≤ 1 →
      ease_in t₁ ≤ ease_in t₂ ∧ ease_out t₁ ≤ ease_out t₂ ∧
      linear t₁ ≤ linear t₂ ∧ smooth t₁ ≤ smooth t₂) ∧
    (∀ t : ℚ, constant t = 0) := by
  refine ⟨fun a b h0 hab hb1 => ?_, fun _ => rfl⟩
  have hb0 : (0 : ℚ) ≤ b := le_trans h0 hab
  have ha1 : a ≤ 1 := le_trans hab hb1
  refine ⟨?_, ?_, hab, ?_⟩
  · unfold ease_in
    nlinarith
  · unfold ease_out
    nlinarith
  · unfold smooth
    nlinarith [mul_nonneg (mul_nonneg (sub_nonneg.2 hab) h0) (sub_nonneg.2 ha1),
      mul_nonneg (mul_nonneg (sub_nonneg.2 hab) h0) (sub_nonneg.2 hb1),
      mul_nonneg (mul_nonneg (sub_nonneg.2 hab) hb0) (sub_nonneg.2 hb1),
      mul_nonneg (mul_nonneg (sub_nonneg.2 hab) hb0) (sub_nonneg.2 ha1)]

/-- Witness for C6 at `t₁ = 0`, `t₂ = 1`. -/
theorem curve_monotonicity_witness :
    (ease_in 0 ≤ ease_in 1 ∧ ease_out 0 ≤ ease_out 1 ∧
     linear 0 ≤ linear 1 ∧ smooth 0 ≤ smooth 1) ∧
    constant 5 = 0 :=
  ⟨curve_monotonicity.1 0 1 (by decide) (by decide) (by decide),
   curve_monotonicity.2 5⟩

theorem sanitiseNumber_num_fallback (v : JSValue) (x : ℚ) :
    ∃ y, sanitiseNumber v (.num x) = .num y := by
  cases v with
  | num z => exact ⟨z, rfl⟩
  | str s =>
    cases h : jsParseFloat (jsTrim s) with
    | some p => exact ⟨p, by simp [sanitiseNumber, h]⟩
    | none => exact ⟨x, by simp [sanitiseNumber, h]⟩
  | undef => exact ⟨x, rfl⟩

theorem listTrim_sandwich (q : Char) (hq : q.isWhitespace = false) (l : List Char) :
    listTrim (q :: l ++ [q]) = q :: l ++ [q] := by
  unfold listTrim
  simp [List.dropWhile_cons, hq, List.reverse_append]

/-- C5 (amended with the throw path excluded): provided the declared
`start`/`end` defaults are numbers or absent and the curve-key candidate is
a string, building the schedule function succeeds; malformed or absent
float arguments fall back to the declared default, and string arguments
have surrounding quote characters stripped. -/
theorem coercion_never_fails (info : ScheduleInfo) (args : List JSValue)
    (hstart : (∃ x, info.defaults "start" = .num x) ∨ info.defaults "start" = .undef)
    (hend : (∃ x, info.defaults "end" = .num x) ∨ info.defaults "end" = .undef)
    (hcurve : ∃ s, curveCandidate info args = .str s) :
    (∃ b, buildBinding info args = some b) ∧
    (∀ (p : ParamSpec) (i : ℕ) (d : ℚ), p.type = "float" →
      info.defaults p.name = .num d →
      (args.getD i .undef = .undef ∨
       ∃ s, args.getD i .undef = .str s ∧ jsParseFloat (jsTrim s) = none) →
      resolveValue info args p i = .num d) ∧
    (∀ (p : ParamSpec) (i : ℕ) (s : String), p.type = "string" →
      args.getD i .undef = .str s →
      resolveValue info args p i = stripQuotes (.str s)) ∧
    (∀ l : List Char, stripQuotes (.str ⟨dquote :: l ++ [dquote]⟩) = .str ⟨l⟩) ∧
    (∀ l : List Char, stripQuotes (.str ⟨squote :: l ++ [squote]⟩) = .str ⟨l⟩) := by
  have hco1 : ∃ x, jsCoalesce (info.defaults "start") (.num 0) = .num x := by
    rcases hstart with ⟨x, hx⟩ | hx <;> rw [hx] <;> exact ⟨_, rfl⟩
  have hco2 : ∃ x, jsCoalesce (info.defaults "end") (.num 1) = .num x := by
    rcases hend with ⟨x, hx⟩ | hx <;> rw [hx] <;> exact ⟨_, rfl⟩
  obtain ⟨sx, hsx⟩ := hco1
  obtain ⟨ex, hex⟩ := hco2
  obtain ⟨sy, hsy⟩ := sanitiseNumber_num_fallback (resolvedParams info args "start") sx
  obtain ⟨ey, hey⟩ := sanitiseNumber_num_fallback (resolvedParams info args "end") ex
  obtain ⟨cs, hcs⟩ := hcurve
  refine ⟨⟨{ start := sy, «end» := ey, span := max (ey - sy) (1 / 1000000),
             curveKey := jsToLower cs,
             direction := jsToLower (jsOrString info.direction "increase"),
             clampOutput := info.clamp ≠ some false }, ?_⟩, ?_, ?_, ?_, ?_⟩
  · simp only [buildBinding]
    rw [hsx, hsy, hex, hey, hcs]
    simp [jsCoalesce]
  · intro p i d htype hdef hraw
    have hsan : sanitiseNumber (args.getD i .undef) (.num d) = .num d := by
      rcases hraw with hu | ⟨s, hs, hp⟩
      · rw [hu]
        rfl
      · rw [hs]
        simp [sanitiseNumber, hp]
    simp only [resolveValue, hdef]
    rw [if_pos htype, hsan, if_neg]
    intro hcon
    exact JSValue.noConfusion hcon.1
  · intro p i s htype hs
    simp only [resolveValue]
    rw [if_neg (show ¬p.type = "float" by rw [htype]; decide), if_pos htype, hs,
      if_pos (show JSValue.str s ≠ JSValue.undef from fun h => JSValue.noConfusion h)]
    simp [jsCoalesce]
  · intro l
    simp only [stripQuotes, listTrim_sandwich dquote (by decide) l]
    rw [if_pos]
    · have hd : (dquote :: l ++ [dquote]).drop 1 = l ++ [dquote] := rfl
      rw [hd, List.dropLast_concat]
    · exact Or.inl ⟨rfl, by rw [show dquote :: l ++ [dquote] = (dquote :: l) ++ [dquote] from rfl,
        List.getLast?_concat]⟩
  · intro l
    simp only [stripQuotes, listTrim_sandwich squote (by decide) l]
    rw [if_pos]
    · have hd : (squote :: l ++ [squote]).drop 1 = l ++ [squote] := rfl
      rw [hd, List.dropLast_concat]
    · refine Or.inr ⟨rfl, by rw [show squote :: l ++ [squote] = (squote :: l) ++ [squote] from rfl,
        List.getLast?_concat]⟩

/-- Witness for C5: `fade_in("abc", <absent>, "\"smooth\"")` — the
unparseable start falls back to the default `0`, the absent end to `1`,
and the quoted curve string is stripped to `smooth`. -/
theorem coercion_never_fails_witness :
    (∃ b, buildBinding fadeInInfo [.str "abc", .undef, .str "\"smooth\""] = some b) ∧
    resolveValue fadeInInfo [.str "abc", .undef, .str "\"smooth\""] ⟨"start", "float", true⟩ 0 =
      .num 0 ∧
    resolveValue fadeInInfo [.str "abc", .undef, .str "\"smooth\""] ⟨"curve", "string", false⟩ 2 =
      stripQuotes (.str "\"smooth\"") ∧
    stripQuotes (.str ⟨dquote :: "ease".data ++ [dquote]⟩) = .str ⟨"ease".data⟩ :=
  ⟨(coercion_never_fails fadeInInfo [.str "abc", .undef, .str "\"smooth\""]
      (Or.inl ⟨0, rfl⟩) (Or.inl ⟨1, rfl⟩) ⟨"smooth", by decide⟩).1,
   (coercion_never_fails fadeInInfo [.str "abc", .undef, .str "\"smooth\""]
      (Or.inl ⟨0, rfl⟩) (Or.inl ⟨1, rfl⟩) ⟨"smooth", by decide⟩).2.1
     ⟨"start", "float", true⟩ 0 0 rfl rfl (Or.inr ⟨"abc", rfl, by decide⟩),
   (coercion_never_fails fadeInInfo [.str "abc", .undef, .str "\"smooth\""]
      (Or.inl ⟨0, rfl⟩) (Or.inl ⟨1, rfl⟩) ⟨"smooth", by decide⟩).2.2.1
     ⟨"curve", "string", false⟩ 2 "\"smooth\"" rfl rfl,
   (coercion_never_fails fadeInInfo [.str "abc", .undef, .str "\"smooth\""]
      (Or.inl ⟨0, rfl⟩) (Or.inl ⟨1, rfl⟩) ⟨"smooth", by decide⟩).2.2.2.1 "ease".data⟩

/-- Counterexample for C5 as stated: a numeric third argument to `fade_in`
reaches `.toLowerCase()` as a number, so the JS factory throws a
`TypeError` — building the schedule function does not succeed. -/
theorem coercion_never_fails_cex :
    buildBinding fadeInInfo [.num (1 / 5), .num (4 / 5), .num 5] = none := rfl

theorem foldl_push_filter {α β : Type} (p : α → Bool) (f : α → β) :
    ∀ (l : List α) (init : List β),
      l.foldl (fun errs m => if p m then errs else errs ++ [f m]) init =
        init ++ (l.filter (fun m => !p m)).map f := by
  intro l
  induction l with
  | nil => intro init; simp
  | cons a t ih =>
    intro init
    by_cases h : p a
    · simp [List.foldl_cons, h, ih]
    · simp [List.foldl_cons, h, ih]

/-- C7 (amended): a schedule name after `@` is checked against the mode's
hardcoded `schedFuncs` list (not the schedule registry); every name outside
that list yields one lint finding of severity `warning` (not a fatal error)
whose message carries the offending name, positioned at the first occurrence
of the matched text. -/
theorem unknown_schedule_lint :
    (∀ (i : ℕ) (line : List Char),
      scheduleLintErrors i line =
        ((scheduleMatches line).filter
          (fun m => !schedFuncs.contains (String.mk (matchFuncName m)))).map
          (fun m => ⟨"Unknown schedule function: " ++ String.mk (matchFuncName m), "warning", i,
            (jsIndexOf line m).getD 0, (jsIndexOf line m).getD 0 + m.length⟩)) ∧
    (∀ (i : ℕ) (line : List Char) (e : LintError),
      e ∈ scheduleLintErrors i line → e.severity = "warning") := by
  have hmain : ∀ (i : ℕ) (line : List Char),
      scheduleLintErrors i line =
        ((scheduleMatches line).filter
          (fun m => !schedFuncs.contains (String.mk (matchFuncName m)))).map
          (fun m => ⟨"Unknown schedule function: " ++ String.mk (matchFuncName m), "warning", i,
            (jsIndexOf line m).getD 0, (jsIndexOf line m).getD 0 + m.length⟩) := by
    intro i line
    unfold scheduleLintErrors
    have h := foldl_push_filter
      (fun m => schedFuncs.contains (String.mk (matchFuncName m)))
      (fun m => (⟨"Unknown schedule function: " ++ String.mk (matchFuncName m), "warning", i,
        (jsIndexOf line m).getD 0, (jsIndexOf line m).getD 0 + m.length⟩ : LintError))
      (scheduleMatches line) []
    simpa using h
  refine ⟨hmain, ?_⟩
  intro i line e he
  rw [hmain i line] at he
  obtain ⟨m, hm, rfl⟩ := List.mem_map.1 he
  rfl

/-- Witness for C7 on the line `@ foo(1)`. -/
theorem unknown_schedule_lint_witness :
    scheduleLintErrors 0 "@ foo(1)".data =
      ((scheduleMatches "@ foo(1)".data).filter
        (fun m => !schedFuncs.contains (String.mk (matchFuncName m)))).map
        (fun m => ⟨"Unknown schedule function: " ++ String.mk (matchFuncName m), "warning", 0,
          (jsIndexOf "@ foo(1)".data m).getD 0, (jsIndexOf "@ foo(1)".data m).getD 0 + m.length⟩) ∧
    (⟨"Unknown schedule function: foo", "warning", 0, 0, 5⟩ : LintError).severity = "warning" :=
  ⟨unknown_schedule_lint.1 0 "@ foo(1)".data,
   unknown_schedule_lint.2 0 "@ foo(1)".data
     ⟨"Unknown schedule function: foo", "warning", 0, 0, 5⟩ (by decide)⟩

/-- Counterexample for C7 as stated: `bell` appears after `@` and is not in
the schedule registry (`DEFAULT_SCHEDULE_FUNCTIONS`), yet the lint reports
no finding at all for it — and a name the lint does flag, like `foo`, gets
severity `warning`, not a fatal error. -/
theorem unknown_schedule_lint_cex :
    DEFAULT_SCHEDULE_FUNCTIONS "bell" = none ∧
    scheduleMatches "@ bell(0.5)".data = ['@' :: ' ' :: "bell".data] ∧
    String.mk (matchFuncName ('@' :: ' ' :: "bell".data)) = "bell" ∧
    scheduleLintErrors 0 "@ bell(0.5)".data = [] ∧
    scheduleLintErrors 0 "@ foo(1)".data =
      [⟨"Unknown schedule function: foo", "warning", 0, 0, 5⟩] ∧
    "warning" ≠ "error" := by
  refine ⟨rfl, by decide, by decide, by decide, by decide, by decide⟩

theorem opening_ne_closing {a b : Char} (ha : a ∈ openings) (hb : b ∈ closings) : a ≠ b := by
  fin_cases ha <;> fin_cases hb <;> decide

theorem pairsFn_cases {o c : Char} (h : pairsFn o = some c) :
    (o = '[' ∧ c = ']') ∨ (o = '{' ∧ c = '}') ∨ (o = '(' ∧ c = ')') := by
  unfold pairsFn at h
  split_ifs at h with h1 h2 h3
  · exact Or.inl ⟨h1, (Option.some.inj h).symm⟩
  · exact Or.inr (Or.inl ⟨h2, (Option.some.inj h).symm⟩)
  · exact Or.inr (Or.inr ⟨h3, (Option.some.inj h).symm⟩)

theorem pairsFn_mem {o c : Char} (h : pairsFn o = some c) : o ∈ openings ∧ c ∈ closings := by
  rcases pairsFn_cases h with ⟨rfl, rfl⟩ | ⟨rfl, rfl⟩ | ⟨rfl, rfl⟩ <;>
    exact ⟨by decide, by decide⟩

theorem pairsFn_iff {o c o' c' : Char} (h : pairsFn o = some c) (h' : pairsFn o' = some c') :
    o = o' ↔ c = c' := by
  rcases pairsFn_cases h with ⟨rfl, rfl⟩ | ⟨rfl, rfl⟩ | ⟨rfl, rfl⟩ <;>
    rcases pairsFn_cases h' with ⟨rfl, rfl⟩ | ⟨rfl, rfl⟩ | ⟨rfl, rfl⟩ <;> decide

theorem validateGo_cons_open {a : Char} (ha : a ∈ openings) (l : List Char) (i : ℕ)
    (stack : List Char) :
    validateGo (a :: l) i stack = validateGo l (i + 1) (a :: stack) := by
  simp only [validateGo]
  rw [if_pos ha]

theorem validateGo_cons_close {a b : Char} (hb : a ∈ closings) (hpair : pairsFn b = some a)
    (l : List Char) (i : ℕ) (stack : List Char) :
    validateGo (a :: l) i (b :: stack) = validateGo l (i + 1) stack := by
  simp only [validateGo]
  rw [if_neg (fun hmem => opening_ne_closing hmem hb rfl), if_pos hb, if_pos hpair]

theorem validateGo_append {w : List Char} (hw : Balanced w) :
    ∀ (rest : List Char) (i : ℕ) (stack : List Char),
      validateGo (w ++ rest) i stack = validateGo rest (i + w.length) stack := by
  induction hw with
  | nil =>
    intro rest i stack
    simp
  | brackets h1 h2 ihw ihrest =>
    rename_i w' rest'
    intro rest i stack
    rw [show ('[' :: w' ++ ']' :: rest') ++ rest = '[' :: (w' ++ (']' :: (rest' ++ rest))) by simp,
      validateGo_cons_open (by decide), ihw, validateGo_cons_close (by decide) (by decide), ihrest,
      show i + 1 + w'.length + 1 + rest'.length = i + ('[' :: w' ++ ']' :: rest').length by
        simp only [List.length_cons, List.length_append]; omega]
  | braces h1 h2 ihw ihrest =>
    rename_i w' rest'
    intro rest i stack
    rw [show ('{' :: w' ++ '}' :: rest') ++ rest = '{' :: (w' ++ ('}' :: (rest' ++ rest))) by simp,
      validateGo_cons_open (by decide), ihw, validateGo_cons_close (by decide) (by decide), ihrest,
      show i + 1 + w'.length + 1 + rest'.length = i + ('{' :: w' ++ '}' :: rest').length by
        simp only [List.length_cons, List.length_append]; omega]
  | parens h1 h2 ihw ihrest =>
    rename_i w' rest'
    intro rest i stack
    rw [show ('(' :: w' ++ ')' :: rest') ++ rest = '(' :: (w' ++ (')' :: (rest' ++ rest))) by simp,
      validateGo_cons_open (by decide), ihw, validateGo_cons_close (by decide) (by decide), ihrest,
      show i + 1 + w'.length + 1 + rest'.length = i + ('(' :: w' ++ ')' :: rest').length by
        simp only [List.length_cons, List.length_append]; omega]

theorem validateGo_valid_count {o c : Char} (hoc : pairsFn o = some c) :
    ∀ (w : List Char) (i : ℕ) (stack : List Char),
      validateGo w i stack = .valid →
      w.count o + stack.count o = w.count c := by
  intro w
  induction w with
  | nil =>
    intro i stack h
    by_cases hs : stack = []
    · subst hs
      simp
    · simp only [validateGo, if_neg hs] at h
      exact absurd h (by simp)
  | cons ch rest ih =>
    intro i stack h
    simp only [validateGo] at h
    by_cases h1 : ch ∈ openings
    · rw [if_pos h1] at h
      have hih := ih (i + 1) (ch :: stack) h
      have hcc : ¬ ch = c := opening_ne_closing h1 (pairsFn_mem hoc).2
      simp only [List.count_cons, beq_iff_eq] at hih ⊢
      by_cases he : ch = o
      · rw [if_pos he, if_neg hcc]
        rw [if_pos he] at hih
        omega
      · rw [if_neg he, if_neg hcc]
        rw [if_neg he] at hih
        omega
    · by_cases h2 : ch ∈ closings
      · rw [if_neg h1, if_pos h2] at h
        have hochne : ¬ ch = o :=
          fun hh => (opening_ne_closing (pairsFn_mem hoc).1 h2) hh.symm
        split at h
        · exact absurd h (by simp)
        · rename_i b tail
          by_cases h3 : pairsFn b = some ch
          · rw [if_pos h3] at h
            have hih := ih (i + 1) tail h
            have hiff := pairsFn_iff hoc h3
            simp only [List.count_cons, beq_iff_eq]
            by_cases hbo : b = o
            · have hcch : ch = c := (hiff.1 hbo.symm).symm
              rw [if_neg hochne, if_pos hbo, if_pos hcch]
              omega
            · have hcchne : ¬ ch = c := fun hh => hbo (hiff.2 hh.symm).symm
              rw [if_neg hochne, if_neg hbo, if_neg hcchne]
              omega
          · rw [if_neg h3] at h
            exact absurd h (by simp)
      · rw [if_neg h1, if_neg h2] at h
        have hih := ih (i + 1) stack h
        have ho : ¬ ch = o := fun hh => h1 (by rw [hh]; exact (pairsFn_mem hoc).1)
        have hc : ¬ ch = c := fun hh => h2 (by rw [hh]; exact (pairsFn_mem hoc).2)
        simp only [List.count_cons, beq_iff_eq]
        rw [if_neg ho, if_neg hc]
        omega

theorem balanced_count {o c : Char} (hoc : pairsFn o = some c) {w : List Char}
    (hw : Balanced w) : w.count o = w.count c := by
  rcases pairsFn_cases hoc with ⟨rfl, rfl⟩ | ⟨rfl, rfl⟩ | ⟨rfl, rfl⟩ <;>
  · induction hw with
    | nil => rfl
    | brackets h1 h2 ih1 ih2 =>
      simp [List.count_cons, List.count_append]
      omega
    | braces h1 h2 ih1 ih2 =>
      simp [List.count_cons, List.count_append]
      omega
    | parens h1 h2 ih1 ih2 =>
      simp [List.count_cons, List.count_append]
      omega

/-- C8 (amended): a concatenation of correctly nested brackets always
validates `Valid`; removing any single closing bracket always yields
exactly one finding (the validator's single early report), which may also
be a `MismatchedBracket` — not only `UnclosedBracket`/`UnmatchedClosing`. -/
theorem validator_roundtrip :
    (∀ w : List Char, Balanced w → validateExpression w = .valid) ∧
    (∀ (u v : List Char) (c : Char), Balanced (u ++ c :: v) → c ∈ closings →
      validateExpression (u ++ v) ≠ .valid) := by
  constructor
  · intro w hw
    unfold validateExpression
    rw [show w = w ++ [] from (List.append_nil w).symm, validateGo_append hw [] 0 []]
    simp [validateGo]
  · intro u v c huvc hc hvalid
    unfold validateExpression at hvalid
    obtain ⟨o, hoc⟩ : ∃ o, pairsFn o = some c := by
      fin_cases hc
      · exact ⟨'[', rfl⟩
      · exact ⟨'{', rfl⟩
      · exact ⟨'(', rfl⟩
    have hbc := balanced_count hoc huvc
    have hvc := validateGo_valid_count hoc (u ++ v) 0 [] hvalid
    have hone : ¬ o = c := opening_ne_closing (pairsFn_mem hoc).1 hc
    have hcone : ¬ c = o := fun hh => hone hh.symm
    simp only [List.count_append, List.count_cons, List.count_nil, beq_iff_eq] at hbc hvc
    rw [if_neg hcone] at hbc
    simp only [if_true] at hbc
    omega

/-- Witness for C8: `[]` validates `Valid`; dropping its closing bracket
leaves `[`, which does not validate `Valid`. -/
theorem validator_roundtrip_witness :
    validateExpression ['[', ']'] = .valid ∧ validateExpression ['['] ≠ .valid :=
  ⟨validator_roundtrip.1 ['[', ']'] (Balanced.brackets Balanced.nil Balanced.nil),
   validator_roundtrip.2 ['['] [] ']' (Balanced.brackets Balanced.nil Balanced.nil) (by decide)⟩

/-- Counterexample for C8 as stated: removing the `]` from the balanced
string `([])` leaves `([)`, whose single finding is a mismatch against the
pending `[` (the spec's `MismatchedBracket`), not an `UnclosedBracket` or
`UnmatchedClosing` finding. -/
theorem validator_roundtrip_cex :
    Balanced ['(', '[', ']', ')'] ∧
    ['(', '[', ']', ')'].eraseIdx 2 = ['(', '[', ')'] ∧
    ['(', '[', ']', ')'].get? 2 = some ']' ∧
    ']' ∈ closings ∧
    validateExpression ['(', '[', ')'] = .mismatched (some '[') ')' 2 ∧
    ¬ IsUnclosedOrUnmatchedClosing (validateExpression ['(', '[', ')']) := by
  have hv : validateExpression ['(', '[', ')'] = .mismatched (some '[') ')' 2 := by decide
  refine ⟨Balanced.parens (Balanced.brackets Balanced.nil Balanced.nil) Balanced.nil,
    by decide, by decide, by decide, hv, ?_⟩
  rw [hv]
  rintro (h | ⟨c, i, h⟩) <;> simp at h

theorem jsFindIndex_none {α : Type} {p : α → Bool} :
    ∀ {l : List α}, jsFindIndex p l = none → ∀ a ∈ l, p a = false := by
  intro l
  induction l with
  | nil =>
    intro _ a ha
    exact absurd ha (List.not_mem_nil a)
  | cons x t ih =>
    intro h a ha
    simp only [jsFindIndex] at h
    by_cases hx : p x
    · rw [if_pos hx] at h
      exact absurd h (by simp)
    · rw [if_neg hx] at h
      rcases List.mem_cons.1 ha with rfl | hat
      · exact Bool.eq_false_iff.2 hx
      · have ht : jsFindIndex p t = none := by
          cases hjf : jsFindIndex p t with
          | none => rfl
          | some j =>
            rw [hjf] at h
            exact absurd h (by simp)
        exact ih ht a hat

theorem jsFindIndex_some {α : Type} {p : α → Bool} :
    ∀ {l : List α} {i : ℕ}, jsFindIndex p l = some i →
      ∃ a, l.get? i = some a ∧ p a = true := by
  intro l
  induction l with
  | nil =>
    intro i h
    exact absurd h (by simp [jsFindIndex])
  | cons x t ih =>
    intro i h
    simp only [jsFindIndex] at h
    by_cases hx : p x
    · rw [if_pos hx] at h
      obtain rfl := Option.some.inj h
      exact ⟨x, rfl, hx⟩
    · rw [if_neg hx] at h
      cases hjf : jsFindIndex p t with
      | none =>
        rw [hjf] at h
        exact absurd h (by simp)
      | some j =>
        rw [hjf] at h
        simp at h
        obtain ⟨a, hget, hpa⟩ := ih hjf
        exact ⟨a, by rw [← h]; exact hget, hpa⟩

theorem jsFindIndex_of_mem {α : Type} {p : α → Bool} :
    ∀ {l : List α} {a : α}, a ∈ l → p a = true → ∃ i, jsFindIndex p l = some i := by
  intro l
  induction l with
  | nil =>
    intro a ha _
    exact absurd ha (List.not_mem_nil a)
  | cons x t ih =>
    intro a ha hpa
    by_cases hx : p x
    · exact ⟨0, by simp only [jsFindIndex]; rw [if_pos hx]⟩
    · rcases List.mem_cons.1 ha with rfl | hat
      · exact absurd hpa hx
      · obtain ⟨j, hj⟩ := ih hat hpa
        exact ⟨j + 1, by simp only [jsFindIndex]; rw [if_neg hx, hj]; rfl⟩

theorem list_set_same {α : Type} :
    ∀ (l : List α) (i : ℕ) (b : α), l.get? i = some b → l.set i b = l := by
  intro l
  induction l with
  | nil =>
    intro i b h
    exact absurd h (by simp)
  | cons x t ih =>
    intro i b h
    cases i with
    | zero =>
      simp only [List.get?_cons_zero, Option.some.injEq] at h
      simp [h]
    | succ j =>
      simp only [List.get?_cons_succ] at h
      rw [List.set_cons_succ, ih j b h]

theorem addExpression_preserves {entries : List CacheEntry} {p e : String} {t : ℤ}
    (hlen : entries.length ≤ maxEntries)
    (hnd : (entries.map CacheEntry.pseudo).Nodup) :
    (addExpression entries p e t).length ≤ maxEntries ∧
    ((addExpression entries p e t).map CacheEntry.pseudo).Nodup := by
  cases h : jsFindIndex (fun item => item.pseudo = p) entries with
  | some i =>
    obtain ⟨a, hget, hpa⟩ := jsFindIndex_some h
    simp only [decide_eq_true_eq] at hpa
    have hstep : addExpression entries p e t = entries.set i ⟨p, e, 0, t⟩ := by
      unfold addExpression
      rw [h]
    rw [hstep]
    constructor
    · rw [List.length_set]
      exact hlen
    · rw [List.map_set]
      have hmapped : (entries.map CacheEntry.pseudo).get? i = some p := by
        rw [List.get?_map, hget]
        simp [hpa]
      rw [show (⟨p, e, 0, t⟩ : CacheEntry).pseudo = p from rfl, list_set_same _ i p hmapped]
      exact hnd
  | none =>
    have hall := jsFindIndex_none h
    have hnotmem : p ∉ entries.map CacheEntry.pseudo := by
      intro hmem
      obtain ⟨a, hmema, hpa⟩ := List.mem_map.1 hmem
      have := hall a hmema
      rw [hpa] at this
      simp at this
    have hndcons : ((⟨p, e, 0, t⟩ :: entries : List CacheEntry).map CacheEntry.pseudo).Nodup := by
      rw [List.map_cons]
      exact List.nodup_cons.2 ⟨hnotmem, hnd⟩
    have hstep : addExpression entries p e t =
        if maxEntries < (⟨p, e, 0, t⟩ :: entries : List CacheEntry).length then
          ((⟨p, e, 0, t⟩ : CacheEntry) :: entries).dropLast
        else (⟨p, e, 0, t⟩ : CacheEntry) :: entries := by
      unfold addExpression
      rw [h]
    rw [hstep]
    by_cases hlen2 : maxEntries < (⟨p, e, 0, t⟩ :: entries : List CacheEntry).length
    · rw [if_pos hlen2]
      constructor
      · rw [List.length_dropLast, List.length_cons]
        rw [List.length_cons] at hlen2
        omega
      · rw [List.map_dropLast]
        exact hndcons.sublist (List.dropLast_sublist _)
    · rw [if_neg hlen2]
      rw [List.length_cons] at hlen2
      refine ⟨?_, hndcons⟩
      rw [List.length_cons]
      omega

/-- C10: starting from the empty cache, any sequence of `addExpression`
calls leaves at most 50 entries and at most one entry per pseudo; adding an
already-present pseudo replaces its entry in place (same index, same
length) instead of adding a second one. -/
theorem cache_invariant :
    (∀ ops : List (String × String × ℤ),
      (runAdds ops).length ≤ maxEntries ∧
      ((runAdds ops).map CacheEntry.pseudo).Nodup) ∧
    (∀ (entries : List CacheEntry) (p e : String) (t : ℤ),
      p ∈ entries.map CacheEntry.pseudo →
      (addExpression entries p e t).length = entries.length ∧
      ∃ i a, entries.get? i = some a ∧ a.pseudo = p ∧
        addExpression entries p e t = entries.set i ⟨p, e, 0, t⟩) := by
  constructor
  · intro ops
    have hgen : ∀ (ops : List (String × String × ℤ)) (init : List CacheEntry),
        init.length ≤ maxEntries → (init.map CacheEntry.pseudo).Nodup →
        (ops.foldl (fun es op => addExpression es op.1 op.2.1 op.2.2) init).length ≤ maxEntries ∧
        ((ops.foldl (fun es op => addExpression es op.1 op.2.1 op.2.2) init).map
          CacheEntry.pseudo).Nodup := by
      intro ops
      induction ops with
      | nil => intro init h1 h2; exact ⟨h1, h2⟩
      | cons op rest ih =>
        intro init h1 h2
        have hstep := @addExpression_preserves init op.1 op.2.1 op.2.2 h1 h2
        exact ih _ hstep.1 hstep.2
    exact hgen ops [] (by simp [maxEntries]) (by simp)
  · intro entries p e t hmem
    obtain ⟨a, hmema, hpa⟩ := List.mem_map.1 hmem
    have hq : decide (a.pseudo = p) = true := by
      simp [hpa]
    obtain ⟨i, hi⟩ :=
      @jsFindIndex_of_mem CacheEntry (fun item => decide (item.pseudo = p)) entries a hmema hq
    obtain ⟨b, hget, hpb⟩ := jsFindIndex_some hi
    simp only [decide_eq_true_eq] at hpb
    have heq : addExpression entries p e t = entries.set i ⟨p, e, 0, t⟩ := by
      unfold addExpression
      rw [hi]
    refine ⟨?_, i, b, hget, hpb, heq⟩
    rw [heq, List.length_set]

/-- Witness for C10: one add, then a replacing add with the same pseudo. -/
theorem cache_invariant_witness :
    (runAdds [("a", "x", 1)]).length ≤ maxEntries ∧
    ((runAdds [("a", "x", 1)]).map CacheEntry.pseudo).Nodup ∧
    (addExpression [⟨"a", "x", 0, 1⟩] "a" "y" 2).length = 1 ∧
    (∃ i a, ([⟨"a", "x", 0, 1⟩] : List CacheEntry).get? i = some a ∧ a.pseudo = "a" ∧
      addExpression [⟨"a", "x", 0, 1⟩] "a" "y" 2 =
        ([⟨"a", "x", 0, 1⟩] : List CacheEntry).set i ⟨"a", "y", 0, 2⟩) :=
  ⟨(cache_invariant.1 [("a", "x", 1)]).1,
   (cache_invariant.1 [("a", "x", 1)]).2,
   (cache_invariant.2 [⟨"a", "x", 0, 1⟩] "a" "y" 2 (by decide)).1,
   (cache_invariant.2 [⟨"a", "x", 0, 1⟩] "a" "y" 2 (by decide)).2⟩

end PromptMath
